import Mathlib

/-
Verification of the benchmark runner in `src/bench/lib/benchmark.js`.

The runner is embedded shallowly:
  * `Benchmark.getArguments` / `Benchmark.constructor` mirror the static
    configuration query and the instance constructor.
  * `Benchmark.run` mirrors the `run` method.  Its inner closure `next` is
    embedded as the fuel-indexed function `Benchmark.next`; the fuel only
    bounds the recursion depth (the JS loop is unbounded), and `none` means
    the loop would still be running after `fuel` checks.
  * Timestamps returned by `performance.now()` are modelled by an external
    clock `ℕ → ℚ` giving the value of the n-th call of `performance.now()`
    during the sampling loop (call 2k is the `start` of invocation k, call
    2k+1 the reading taken right after invocation k settles).
  * `bench` may signal failure (a rejected promise); whether the k-th
    invocation fails is modelled by `benchOk k`.  On failure the `.then`
    callback is skipped and the rejection propagates out of `run`, which is
    the `RunResult.failure` outcome.  Hooks may mutate instance state, which
    is threaded through explicitly (`setup`, `benchFn`, `teardown`).
  * The observable hook invocations are recorded in an event trace.
-/

/-- A JavaScript value, as far as the runner cares: `options` is opaque
(`any` in the source), and the default configuration uses the empty object
literal `{}`. -/
inductive JSValue where
  | null : JSValue
  | bool (b : Bool) : JSValue
  | num (q : ℚ) : JSValue
  | str (s : String) : JSValue
  | obj (fields : List (String × JSValue)) : JSValue

/-- The `BenchmarkOptions` record type of the source:
`{ label: string, options: any }`. -/
structure BenchmarkOptions where
  label : String
  options : JSValue

/-- The instance fields of the `Benchmark` class that the base class itself
declares and assigns: `label` and `options`. -/
structure Benchmark where
  label : String
  options : JSValue

/-- `static getArguments()` of the base class:
`return [{ label: '', options: {} }];`. -/
def Benchmark.getArguments : List BenchmarkOptions :=
  [{ label := "", options := JSValue.obj [] }]

/-- `constructor(opts)`: `this.label = opts.label; this.options = opts.options;`. -/
def Benchmark.constructor (opts : BenchmarkOptions) : Benchmark :=
  { label := opts.label, options := opts.options }

/-- Observable hook invocations during a run. -/
inductive Event where
  | setupEv : Event
  | benchEv (k : ℕ) : Event
  | teardownEv : Event
deriving DecidableEq

/-- Outcome of the promise returned by `run`: it either fulfills with the
sample array, or rejects with the rejection of the failing `bench`
invocation (recorded here by its index). -/
inductive RunResult where
  | success (samples : List ℚ) : RunResult
  | failure (failIndex : ℕ) : RunResult
deriving DecidableEq

/-- Everything observable about one run: the hook trace, the final instance
state, and the settled value of the returned promise. -/
structure RunOutcome (σ : Type) where
  trace : List Event
  state : σ
  result : RunResult
deriving DecidableEq

/-- The environment a run executes in: the external `performance.now()`
clock, and the (possibly overridden) hooks acting on instance state `σ`.
`benchOk k` tells whether the k-th `bench` invocation settles successfully;
`benchFn k` is its effect on the instance state when it does. -/
structure RunEnv (σ : Type) where
  clock : ℕ → ℚ
  setup : σ → σ
  benchOk : ℕ → Bool
  benchFn : ℕ → σ → σ
  teardown : σ → σ

/-- The inner closure `next` of `run`, with `elapsed` and `samples` passed
explicitly (they are mutable locals captured by the closure) and `k` the
number of `bench` invocations already completed.  Mirrors:

    if (elapsed >= 300 && samples.length > 210) {
        return Promise.resolve(this.teardown()).then(() => samples);
    }
    const start = performance.now();
    return Promise.resolve(this.bench()).then(() => {
        const sample = performance.now() - start;
        elapsed += sample;
        samples.push(sample);
        return next();
    });

A rejected `bench` promise skips the `.then` callback, so nothing is
recorded and the rejection propagates (the `failure` branch). -/
def Benchmark.next {σ : Type} (env : RunEnv σ) :
    ℕ → ℕ → ℚ → List ℚ → σ → Option (RunOutcome σ)
  | 0, _, _, _, _ => none
  | fuel + 1, k, elapsed, samples, s =>
    if 300 ≤ elapsed ∧ 210 < samples.length then
      some { trace := [Event.teardownEv], state := env.teardown s,
             result := RunResult.success samples }
    else if env.benchOk k then
      Option.map
        (fun o => { trace := Event.benchEv k :: o.trace, state := o.state,
                    result := o.result })
        (Benchmark.next env fuel (k + 1)
          (elapsed + (env.clock (2 * k + 1) - env.clock (2 * k)))
          (samples ++ [env.clock (2 * k + 1) - env.clock (2 * k)])
          (env.benchFn k s))
    else
      some { trace := [Event.benchEv k], state := s,
             result := RunResult.failure k }

/-- The `run` method: `return Promise.resolve(this.setup()).then(next);`
with `elapsed = 0` and `samples = []`. -/
def Benchmark.run {σ : Type} (env : RunEnv σ) (fuel : ℕ) (b : σ) :
    Option (RunOutcome σ) :=
  Option.map
    (fun o => { trace := Event.setupEv :: o.trace, state := o.state,
                result := o.result })
    (Benchmark.next env fuel 0 0 [] (env.setup b))

/-- The duration the loop computes for invocation k:
`performance.now() - start`. -/
def dur (clock : ℕ → ℚ) (k : ℕ) : ℚ := clock (2 * k + 1) - clock (2 * k)

/-- The first n sample values, in collection order. -/
def sampleSeq (d : ℕ → ℚ) (n : ℕ) : List ℚ := (List.range n).map d

/-- The value of the `elapsed` accumulator after n completed samples. -/
def elapsedAt (d : ℕ → ℚ) (n : ℕ) : ℚ := (sampleSeq d n).sum

/-- The dual stopping condition of the loop, evaluated with n collected
samples: `elapsed >= 300 && samples.length > 210`. -/
def stopAt (d : ℕ → ℚ) (n : ℕ) : Prop := 300 ≤ elapsedAt d n ∧ 210 < n

instance (d : ℕ → ℚ) (n : ℕ) : Decidable (stopAt d n) := by
  unfold stopAt; infer_instance

/-- State after bench invocations k, k+1, …, k+n-1 starting from s. -/
def iterBench {σ : Type} (env : RunEnv σ) : ℕ → ℕ → σ → σ
  | _, 0, s => s
  | k, n + 1, s => iterBench env (k + 1) n (env.benchFn k s)

/-- A clock whose consecutive start/end readings give per-invocation
durations `d`: reading 2k is `elapsedAt d k`, reading 2k+1 is
`elapsedAt d (k+1)`. -/
def clockOfDur (d : ℕ → ℚ) (n : ℕ) : ℚ := elapsedAt d ((n + 1) / 2)

/-- An environment over trivial state whose bench always succeeds and whose
clock realises per-invocation durations `d`. -/
def envOfDur (d : ℕ → ℚ) : RunEnv Unit :=
  { clock := clockOfDur d, setup := id, benchOk := fun _ => true,
    benchFn := fun _ s => s, teardown := id }

/-- The base class's own hooks: `setup`, `bench`, `teardown` are all no-ops
(and a no-op `bench` never rejects). -/
def defaultEnv (clock : ℕ → ℚ) : RunEnv Benchmark :=
  { clock := clock, setup := id, benchOk := fun _ => true,
    benchFn := fun _ s => s, teardown := id }

/-- The hook-invocation pattern claimed for every run: setup once, then
bench N times with N ≥ 1, then teardown once. -/
def hookPattern (tr : List Event) : Prop :=
  ∃ N : ℕ, 1 ≤ N ∧
    tr = Event.setupEv :: ((List.range N).map Event.benchEv ++ [Event.teardownEv])

/-- Recognises bench invocation events in a trace. -/
def isBenchEv : Event → Bool
  | Event.benchEv _ => true
  | _ => false

/-- Constant duration 50 (Scenario B pace). -/
def d50 : ℕ → ℚ := fun _ => 50

/-- Constant duration 3/2 (Scenario A pace). -/
def dA : ℕ → ℚ := fun _ => 3 / 2

/-- Constant duration 2. -/
def dC : ℕ → ℚ := fun _ => 2

/-- One negative duration (a clock running backwards during invocation 0),
then 50 per invocation. -/
def dNeg : ℕ → ℚ := fun k => if k = 0 then -1 else 50

def envB : RunEnv Unit := envOfDur d50

def envA : RunEnv Unit := envOfDur dA

def envC : RunEnv Unit := envOfDur dC

def envNeg : RunEnv Unit := envOfDur dNeg

/-- An environment whose very first bench invocation rejects. -/
def envFail0 : RunEnv Unit :=
  { clock := fun _ => 0, setup := id, benchOk := fun _ => false,
    benchFn := fun _ s => s, teardown := id }

/-- An environment whose bench invocations 0,1,2 succeed (50 units each) and
whose invocation 3 rejects. -/
def envFailAt3 : RunEnv Unit :=
  { clock := clockOfDur d50, setup := id, benchOk := fun k => decide (k < 3),
    benchFn := fun _ s => s, teardown := id }

/-- The outcome of a maximal successful run in environment `env` stopping
after N samples. -/
def stopOutcome {σ : Type} (env : RunEnv σ) (b : σ) (N : ℕ) : RunOutcome σ :=
  { trace := Event.setupEv :: ((List.range N).map Event.benchEv ++ [Event.teardownEv]),
    state := env.teardown (iterBench env 0 N (env.setup b)),
    result := RunResult.success (sampleSeq (dur env.clock) N) }

/-- A sample configuration used to exercise the constructor. -/
def optsW : BenchmarkOptions := { label := "w", options := JSValue.num 7 }

theorem sampleSeq_length (d : ℕ → ℚ) (n : ℕ) : (sampleSeq d n).length = n := by
  simp [sampleSeq]

theorem sampleSeq_succ (d : ℕ → ℚ) (n : ℕ) :
    sampleSeq d (n + 1) = sampleSeq d n ++ [d n] := by
  simp [sampleSeq, List.range_succ]

theorem elapsedAt_zero (d : ℕ → ℚ) : elapsedAt d 0 = 0 := rfl

theorem elapsedAt_succ (d : ℕ → ℚ) (n : ℕ) :
    elapsedAt d (n + 1) = elapsedAt d n + d n := by
  simp [elapsedAt, sampleSeq_succ]

theorem sampleSeq_get (d : ℕ → ℚ) (n k : ℕ) (hk : k < (sampleSeq d n).length) :
    (sampleSeq d n).get ⟨k, hk⟩ = d k := by
  simp [sampleSeq]

theorem sampleSeq_const (c : ℚ) (n : ℕ) :
    sampleSeq (fun _ => c) n = List.replicate n c := by
  simp [sampleSeq, List.map_const']

theorem elapsedAt_const (c : ℚ) (n : ℕ) :
    elapsedAt (fun _ => c) n = n * c := by
  simp [elapsedAt, sampleSeq_const, List.sum_replicate, nsmul_eq_mul]

theorem dur_clockOfDur (d : ℕ → ℚ) (k : ℕ) : dur (clockOfDur d) k = d k := by
  have h1 : (2 * k + 1 + 1) / 2 = k + 1 := by omega
  have h2 : (2 * k + 1) / 2 = k := by omega
  simp only [dur, clockOfDur, h1, h2, elapsedAt_succ]
  ring

theorem dur_envOfDur (d : ℕ → ℚ) : dur (envOfDur d).clock = d :=
  funext fun k => dur_clockOfDur d k

theorem next_zero {σ : Type} (env : RunEnv σ) (k : ℕ) (e : ℚ) (smp : List ℚ)
    (s : σ) : Benchmark.next env 0 k e smp s = none := rfl

theorem next_succ {σ : Type} (env : RunEnv σ) (fuel k : ℕ) (e : ℚ)
    (smp : List ℚ) (s : σ) :
    Benchmark.next env (fuel + 1) k e smp s =
      if 300 ≤ e ∧ 210 < smp.length then
        some { trace := [Event.teardownEv], state := env.teardown s,
               result := RunResult.success smp }
      else if env.benchOk k then
        Option.map
          (fun o => { trace := Event.benchEv k :: o.trace, state := o.state,
                      result := o.result })
          (Benchmark.next env fuel (k + 1)
            (e + (env.clock (2 * k + 1) - env.clock (2 * k)))
            (smp ++ [env.clock (2 * k + 1) - env.clock (2 * k)])
            (env.benchFn k s))
      else
        some { trace := [Event.benchEv k], state := s,
               result := RunResult.failure k } := rfl

theorem stop_cond_iff (d : ℕ → ℚ) (k : ℕ) :
    (300 ≤ elapsedAt d k ∧ 210 < (sampleSeq d k).length) ↔ stopAt d k := by
  rw [sampleSeq_length]; exact Iff.rfl

/-- If both stopping conditions first hold after N samples and the first N
bench invocations succeed, the loop, entered after k completed samples,
runs exactly invocations k, …, N-1 and then tears down. -/
theorem next_eq_of_firstStop {σ : Type} (env : RunEnv σ) (N : ℕ)
    (hok : ∀ j, j < N → env.benchOk j = true)
    (hstop : stopAt (dur env.clock) N)
    (hfirst : ∀ j, j < N → ¬ stopAt (dur env.clock) j) :
    ∀ fuel k s, k ≤ N → N - k < fuel →
      Benchmark.next env fuel k (elapsedAt (dur env.clock) k)
          (sampleSeq (dur env.clock) k) s =
        some { trace := (List.range' k (N - k)).map Event.benchEv ++ [Event.teardownEv],
               state := env.teardown (iterBench env k (N - k) s),
               result := RunResult.success (sampleSeq (dur env.clock) N) } := by
  intro fuel
  induction fuel with
  | zero => intro k s _ hf; omega
  | succ fuel ih =>
    intro k s hkN hf
    rcases Nat.eq_or_lt_of_le hkN with hkN' | hkN'
    · subst hkN'
      rw [next_succ, if_pos ((stop_cond_iff (dur env.clock) k).mpr hstop)]
      simp [iterBench]
    · have hns : ¬ (300 ≤ elapsedAt (dur env.clock) k ∧
          210 < (sampleSeq (dur env.clock) k).length) := by
        rw [stop_cond_iff]; exact hfirst k hkN'
      rw [next_succ, if_neg hns, hok k hkN', if_pos rfl]
      have hdur : env.clock (2 * k + 1) - env.clock (2 * k) = dur env.clock k := rfl
      rw [hdur, ← elapsedAt_succ, ← sampleSeq_succ,
        ih (k + 1) (env.benchFn k s) (by omega) (by omega)]
      have hNk : N - k = (N - (k + 1)) + 1 := by omega
      rw [hNk, List.range'_succ]
      simp [iterBench]

/-- Run-level version of `next_eq_of_firstStop`. -/
theorem run_eq_of_firstStop {σ : Type} (env : RunEnv σ) (b : σ) (N fuel : ℕ)
    (hok : ∀ j, j < N → env.benchOk j = true)
    (hstop : stopAt (dur env.clock) N)
    (hfirst : ∀ j, j < N → ¬ stopAt (dur env.clock) j)
    (hfuel : N < fuel) :
    Benchmark.run env fuel b = some (stopOutcome env b N) := by
  unfold Benchmark.run
  have h0 : Benchmark.next env fuel 0 0 [] (env.setup b) =
      Benchmark.next env fuel 0 (elapsedAt (dur env.clock) 0)
        (sampleSeq (dur env.clock) 0) (env.setup b) := rfl
  rw [h0, next_eq_of_firstStop env N hok hstop hfirst fuel 0 (env.setup b)
    (Nat.zero_le N) (by omega)]
  simp [stopOutcome, List.range_eq_range']

/-- If the first m bench invocations succeed, invocation m rejects, and the
stopping condition never holds up to m samples, the loop, entered after k
completed samples, runs invocations k, …, m and then propagates the
rejection without tearing down. -/
theorem next_eq_of_fail {σ : Type} (env : RunEnv σ) (m : ℕ)
    (hok : ∀ j, j < m → env.benchOk j = true)
    (hfail : env.benchOk m = false)
    (hnostop : ∀ j, j ≤ m → ¬ stopAt (dur env.clock) j) :
    ∀ fuel k s, k ≤ m → m - k < fuel →
      Benchmark.next env fuel k (elapsedAt (dur env.clock) k)
          (sampleSeq (dur env.clock) k) s =
        some { trace := (List.range' k (m - k + 1)).map Event.benchEv,
               state := iterBench env k (m - k) s,
               result := RunResult.failure m } := by
  intro fuel
  induction fuel with
  | zero => intro k s _ hf; omega
  | succ fuel ih =>
    intro k s hkm hf
    have hns : ¬ (300 ≤ elapsedAt (dur env.clock) k ∧
        210 < (sampleSeq (dur env.clock) k).length) := by
      rw [stop_cond_iff]; exact hnostop k hkm
    rcases Nat.eq_or_lt_of_le hkm with hkm' | hkm'
    · subst hkm'
      rw [next_succ, if_neg hns, hfail, if_neg (by simp)]
      simp [iterBench]
    · rw [next_succ, if_neg hns, hok k hkm', if_pos rfl]
      have hdur : env.clock (2 * k + 1) - env.clock (2 * k) = dur env.clock k := rfl
      rw [hdur, ← elapsedAt_succ, ← sampleSeq_succ,
        ih (k + 1) (env.benchFn k s) (by omega) (by omega)]
      have hmk : m - k + 1 = (m - (k + 1) + 1) + 1 := by omega
      have hmk2 : m - k = (m - (k + 1)) + 1 := by omega
      rw [hmk, hmk2]
      simp [iterBench, List.range'_succ]

/-- Run-level version of `next_eq_of_fail`: the rejection of invocation m
surfaces as the run result; bench is invoked exactly m+1 times and teardown
never runs. -/
theorem run_eq_of_fail {σ : Type} (env : RunEnv σ) (b : σ) (m fuel : ℕ)
    (hok : ∀ j, j < m → env.benchOk j = true)
    (hfail : env.benchOk m = false)
    (hnostop : ∀ j, j ≤ m → ¬ stopAt (dur env.clock) j)
    (hfuel : m < fuel) :
    Benchmark.run env fuel b =
      some { trace := Event.setupEv :: (List.range (m + 1)).map Event.benchEv,
             state := iterBench env 0 m (env.setup b),
             result := RunResult.failure m } := by
  unfold Benchmark.run
  have h0 : Benchmark.next env fuel 0 0 [] (env.setup b) =
      Benchmark.next env fuel 0 (elapsedAt (dur env.clock) 0)
        (sampleSeq (dur env.clock) 0) (env.setup b) := rfl
  rw [h0, next_eq_of_fail env m hok hfail hnostop fuel 0 (env.setup b)
    (Nat.zero_le m) (by omega)]
  simp [List.range_eq_range']

/-- Converse characterisation: whenever the loop, entered after k completed
samples, returns a successful outcome, there is an N ≥ k such that the
returned samples are exactly the first N durations, the stopping condition
holds at N and at no intermediate check, every intermediate bench invocation
succeeded, bench events k, …, N-1 are followed by a single teardown, and the
final state is teardown applied after the remaining bench invocations. -/
theorem next_success_char {σ : Type} (env : RunEnv σ) :
    ∀ fuel k s o out,
      Benchmark.next env fuel k (elapsedAt (dur env.clock) k)
          (sampleSeq (dur env.clock) k) s = some o →
      o.result = RunResult.success out →
      ∃ N, k ≤ N ∧ out = sampleSeq (dur env.clock) N ∧
        stopAt (dur env.clock) N ∧
        (∀ j, k ≤ j → j < N → ¬ stopAt (dur env.clock) j ∧ env.benchOk j = true) ∧
        o.trace = (List.range' k (N - k)).map Event.benchEv ++ [Event.teardownEv] ∧
        o.state = env.teardown (iterBench env k (N - k) s) := by
  intro fuel
  induction fuel with
  | zero => intro k s o out h _; rw [next_zero] at h; cases h
  | succ fuel ih =>
    intro k s o out h hr
    rw [next_succ] at h
    by_cases hc : 300 ≤ elapsedAt (dur env.clock) k ∧
        210 < (sampleSeq (dur env.clock) k).length
    · rw [if_pos hc] at h
      have ho := Option.some.inj h
      subst ho
      have hout : sampleSeq (dur env.clock) k = out := by
        have hr' : RunResult.success (sampleSeq (dur env.clock) k) =
            RunResult.success out := hr
        exact RunResult.success.inj hr'
      refine ⟨k, le_rfl, hout.symm, (stop_cond_iff (dur env.clock) k).mp hc,
        fun j hj1 hj2 => absurd hj2 (by omega), ?_, ?_⟩
      · simp
      · simp [iterBench]
    · rw [if_neg hc] at h
      by_cases hbk : env.benchOk k = true
      · rw [hbk, if_pos rfl] at h
        have hdur : env.clock (2 * k + 1) - env.clock (2 * k) =
            dur env.clock k := rfl
        rw [hdur, ← elapsedAt_succ, ← sampleSeq_succ] at h
        obtain ⟨o', ho', rfl⟩ := Option.map_eq_some'.mp h
        obtain ⟨N, hkN, hout, hstop, hmid, htr, hst⟩ :=
          ih (k + 1) (env.benchFn k s) o' out ho' hr
        refine ⟨N, by omega, hout, hstop, ?_, ?_, ?_⟩
        · intro j hj1 hj2
          rcases Nat.eq_or_lt_of_le hj1 with hj | hj
          · exact hj ▸ ⟨(stop_cond_iff (dur env.clock) k).not.mp hc, hbk⟩
          · exact hmid j hj hj2
        · have hNk : N - k = (N - (k + 1)) + 1 := by omega
          have : (Event.benchEv k :: o'.trace : List Event) =
              (List.range' k (N - k)).map Event.benchEv ++ [Event.teardownEv] := by
            rw [htr, hNk, List.range'_succ]
            simp
          exact this
        · have hNk : N - k = (N - (k + 1)) + 1 := by omega
          have : o'.state = env.teardown (iterBench env k (N - k) s) := by
            rw [hst, hNk]
            simp [iterBench]
          exact this
      · rw [if_neg hbk] at h
        have ho := Option.some.inj h
        subst ho
        cases hr

/-- Run-level converse characterisation of successful runs. -/
theorem run_success_char {σ : Type} (env : RunEnv σ) (b : σ) (fuel : ℕ)
    (o : RunOutcome σ) (out : List ℚ)
    (h : Benchmark.run env fuel b = some o)
    (hr : o.result = RunResult.success out) :
    ∃ N, out = sampleSeq (dur env.clock) N ∧ stopAt (dur env.clock) N ∧
      (∀ j, j < N → ¬ stopAt (dur env.clock) j ∧ env.benchOk j = true) ∧
      o.trace = Event.setupEv ::
        ((List.range N).map Event.benchEv ++ [Event.teardownEv]) ∧
      o.state = env.teardown (iterBench env 0 N (env.setup b)) := by
  unfold Benchmark.run at h
  obtain ⟨o', ho', rfl⟩ := Option.map_eq_some'.mp h
  have h0 : Benchmark.next env fuel 0 (elapsedAt (dur env.clock) 0)
      (sampleSeq (dur env.clock) 0) (env.setup b) = some o' := ho'
  obtain ⟨N, _, hout, hstop, hmid, htr, hst⟩ :=
    next_success_char env fuel 0 (env.setup b) o' out h0 hr
  refine ⟨N, hout, hstop, fun j hj => hmid j (Nat.zero_le j) hj, ?_, hst⟩
  have : (Event.setupEv :: o'.trace : List Event) = Event.setupEv ::
      ((List.range N).map Event.benchEv ++ [Event.teardownEv]) := by
    rw [htr]
    simp [List.range_eq_range']
  exact this

/-- When `benchFn` and `teardown` leave the state alone, so does the loop. -/
theorem next_state_of_id {σ : Type} (env : RunEnv σ)
    (hb : ∀ k s, env.benchFn k s = s) (ht : ∀ s, env.teardown s = s) :
    ∀ fuel k e smp s o,
      Benchmark.next env fuel k e smp s = some o → o.state = s := by
  intro fuel
  induction fuel with
  | zero => intro k e smp s o h; rw [next_zero] at h; cases h
  | succ fuel ih =>
    intro k e smp s o h
    rw [next_succ] at h
    by_cases hc : 300 ≤ e ∧ 210 < smp.length
    · rw [if_pos hc] at h
      have ho := Option.some.inj h
      subst ho
      exact ht s
    · rw [if_neg hc] at h
      by_cases hbk : env.benchOk k = true
      · rw [hbk, if_pos rfl] at h
        obtain ⟨o', ho', rfl⟩ := Option.map_eq_some'.mp h
        have := ih (k + 1) _ _ (env.benchFn k s) o' ho'
        rw [hb k s] at this
        exact this
      · rw [if_neg hbk] at h
        have ho := Option.some.inj h
        subst ho
        rfl

/-- A run whose hooks all leave the instance state alone returns the
instance unchanged. -/
theorem run_state_of_id {σ : Type} (env : RunEnv σ)
    (hsu : ∀ s, env.setup s = s) (hb : ∀ k s, env.benchFn k s = s)
    (ht : ∀ s, env.teardown s = s) (fuel : ℕ) (b : σ) (o : RunOutcome σ)
    (h : Benchmark.run env fuel b = some o) : o.state = b := by
  unfold Benchmark.run at h
  obtain ⟨o', ho', rfl⟩ := Option.map_eq_some'.mp h
  have := next_state_of_id env hb ht fuel 0 0 [] (env.setup b) o' ho'
  rw [hsu b] at this
  exact this

theorem stopAt_211 (d : ℕ → ℚ) (h : 300 ≤ elapsedAt d 211) : stopAt d 211 :=
  ⟨h, by omega⟩

theorem not_stopAt_lt_211 (d : ℕ → ℚ) : ∀ j, j < 211 → ¬ stopAt d j :=
  fun _ hj h => absurd h.2 (by omega)

theorem stopAt_d50_211 : stopAt d50 211 :=
  stopAt_211 d50 (by
    rw [show d50 = (fun _ => (50 : ℚ)) from rfl, elapsedAt_const]; norm_num)

theorem stopAt_dA_211 : stopAt dA 211 :=
  stopAt_211 dA (by
    rw [show dA = (fun _ => (3 / 2 : ℚ)) from rfl, elapsedAt_const]; norm_num)

theorem stopAt_dC_211 : stopAt dC 211 :=
  stopAt_211 dC (by
    rw [show dC = (fun _ => (2 : ℚ)) from rfl, elapsedAt_const]; norm_num)

theorem elapsedAt_dNeg (n : ℕ) : elapsedAt dNeg (n + 1) = -1 + n * 50 := by
  induction n with
  | zero => simp [elapsedAt_succ, elapsedAt_zero, dNeg]
  | succ n ih =>
    rw [elapsedAt_succ, ih]
    have : dNeg (n + 1) = 50 := by simp [dNeg]
    rw [this]
    push_cast
    ring

theorem stopAt_dNeg_211 : stopAt dNeg 211 :=
  stopAt_211 dNeg (by rw [show (211 : ℕ) = 210 + 1 from rfl, elapsedAt_dNeg]; norm_num)

theorem dur_envB : dur envB.clock = d50 := dur_envOfDur d50

theorem dur_envA : dur envA.clock = dA := dur_envOfDur dA

theorem dur_envC : dur envC.clock = dC := dur_envOfDur dC

theorem dur_envNeg : dur envNeg.clock = dNeg := dur_envOfDur dNeg

theorem dur_envFailAt3 : dur envFailAt3.clock = d50 :=
  funext fun k => dur_clockOfDur d50 k

theorem dur_defaultEnvB : dur (defaultEnv (clockOfDur d50)).clock = d50 :=
  funext fun k => dur_clockOfDur d50 k

theorem runB_eq : Benchmark.run envB 212 () = some (stopOutcome envB () 211) :=
  run_eq_of_firstStop envB () 211 212 (fun _ _ => rfl)
    (by rw [dur_envB]; exact stopAt_d50_211)
    (fun j hj => by rw [dur_envB]; exact not_stopAt_lt_211 d50 j hj)
    (by omega)

theorem runA_eq : Benchmark.run envA 212 () = some (stopOutcome envA () 211) :=
  run_eq_of_firstStop envA () 211 212 (fun _ _ => rfl)
    (by rw [dur_envA]; exact stopAt_dA_211)
    (fun j hj => by rw [dur_envA]; exact not_stopAt_lt_211 dA j hj)
    (by omega)

theorem runNeg_eq :
    Benchmark.run envNeg 212 () = some (stopOutcome envNeg () 211) :=
  run_eq_of_firstStop envNeg () 211 212 (fun _ _ => rfl)
    (by rw [dur_envNeg]; exact stopAt_dNeg_211)
    (fun j hj => by rw [dur_envNeg]; exact not_stopAt_lt_211 dNeg j hj)
    (by omega)

theorem runD_eq :
    Benchmark.run (defaultEnv (clockOfDur d50)) 212 (Benchmark.constructor optsW) =
      some (stopOutcome (defaultEnv (clockOfDur d50)) (Benchmark.constructor optsW) 211) :=
  run_eq_of_firstStop (defaultEnv (clockOfDur d50)) (Benchmark.constructor optsW)
    211 212 (fun _ _ => rfl)
    (by rw [dur_defaultEnvB]; exact stopAt_d50_211)
    (fun j hj => by rw [dur_defaultEnvB]; exact not_stopAt_lt_211 d50 j hj)
    (by omega)

theorem elapsedAt_mono (d : ℕ → ℚ) (hd : ∀ k, 0 ≤ d k) :
    Monotone (elapsedAt d) :=
  monotone_nat_of_le_succ fun n => by
    rw [elapsedAt_succ]
    have := hd n
    linarith

theorem clockOfDur_mono (d : ℕ → ℚ) (hd : ∀ k, 0 ≤ d k) :
    Monotone (clockOfDur d) :=
  fun a b hab => elapsedAt_mono d hd (by omega : (a + 1) / 2 ≤ (b + 1) / 2)

theorem runFail0_eq :
    Benchmark.run envFail0 1 () =
      some { trace := [Event.setupEv, Event.benchEv 0], state := (),
             result := RunResult.failure 0 } := by
  have h := run_eq_of_fail envFail0 () 0 1 (fun j hj => absurd hj (by omega)) rfl
    (fun j _ h => absurd h.2 (by omega)) (by omega)
  simpa [iterBench] using h

/-- C1: for every run in which all bench invocations succeed, the sampling
loop stops at the first sample index N at which both the cumulative sum of
samples is ≥ 300 and the sample count is > 210, and never earlier: the run
returns exactly the first N samples — one sample was taken at every check
where at least one condition was still unmet, and none after the first index
at which both hold. -/
theorem claim_C1_first_stop {σ : Type} (env : RunEnv σ) (b : σ) (N fuel : ℕ)
    (hok : ∀ k, env.benchOk k = true)
    (hstop : stopAt (dur env.clock) N)
    (hfirst : ∀ j, j < N → ¬ stopAt (dur env.clock) j)
    (hfuel : N < fuel) :
    Benchmark.run env fuel b = some (stopOutcome env b N) :=
  run_eq_of_firstStop env b N fuel (fun j _ => hok j) hstop hfirst hfuel

/-- Witness for C1 at a concrete environment: constant duration 50, first
stop at N = 211. -/
theorem claim_C1_witness :
    Benchmark.run envB 212 () = some (stopOutcome envB () 211) :=
  claim_C1_first_stop envB () 211 212 (fun _ => rfl)
    (by rw [dur_envB]; exact stopAt_d50_211)
    (fun j hj => by rw [dur_envB]; exact not_stopAt_lt_211 d50 j hj)
    (by omega)

/-- C2 (amended): for every run in which no bench invocation fails — i.e.
every run that completes successfully — the observed hook invocations are
exactly setup once, then bench N times with N ≥ 1 (in invocation order),
then teardown once, with no interleaving. -/
theorem claim_C2_hook_ordering {σ : Type} (env : RunEnv σ) (b : σ) (fuel : ℕ)
    (o : RunOutcome σ) (out : List ℚ)
    (h : Benchmark.run env fuel b = some o)
    (hr : o.result = RunResult.success out) :
    1 ≤ out.length ∧
    o.trace = Event.setupEv ::
      ((List.range out.length).map Event.benchEv ++ [Event.teardownEv]) := by
  obtain ⟨N, hout, hstop, _, htr, _⟩ := run_success_char env b fuel o out h hr
  have hlen : out.length = N := by rw [hout, sampleSeq_length]
  constructor
  · have := hstop.2
    omega
  · rw [hlen]
    exact htr

/-- Witness for C2's amended statement at the constant-50 environment. -/
theorem claim_C2_witness :
    1 ≤ (sampleSeq (dur envB.clock) 211).length ∧
    (stopOutcome envB () 211).trace = Event.setupEv ::
      ((List.range (sampleSeq (dur envB.clock) 211).length).map Event.benchEv ++
        [Event.teardownEv]) :=
  claim_C2_hook_ordering envB () 212 _ _ runB_eq rfl

/-- C2 counterexample: a run whose first bench invocation rejects observes
setup then bench and no teardown, so the claimed setup–bench–teardown
pattern does not hold for every run. -/
theorem claim_C2_counterexample :
    Benchmark.run envFail0 1 () =
      some { trace := [Event.setupEv, Event.benchEv 0], state := (),
             result := RunResult.failure 0 } ∧
    ¬ hookPattern [Event.setupEv, Event.benchEv 0] := by
  refine ⟨runFail0_eq, ?_⟩
  rintro ⟨N, _, hN⟩
  have hmem : Event.teardownEv ∈ ([Event.setupEv, Event.benchEv 0] : List Event) := by
    rw [hN]
    exact List.mem_cons_of_mem _ (List.mem_append_right _ (List.mem_singleton.mpr rfl))
  simp at hmem

/-- C3 (amended): if the m-th bench invocation signals failure (the stopping
condition not having fired at any check up to the m-th), the run's result is
a failure referencing index m, no sample is recorded for invocation m and no
further bench invocation happens, the failure is not retried, and teardown
is NOT invoked: the rejection propagates directly to the caller. -/
theorem claim_C3_failure {σ : Type} (env : RunEnv σ) (b : σ) (m fuel : ℕ)
    (hok : ∀ j, j < m → env.benchOk j = true)
    (hfail : env.benchOk m = false)
    (hnostop : ∀ j, j ≤ m → ¬ stopAt (dur env.clock) j)
    (hfuel : m < fuel) :
    Benchmark.run env fuel b =
      some { trace := Event.setupEv :: (List.range (m + 1)).map Event.benchEv,
             state := iterBench env 0 m (env.setup b),
             result := RunResult.failure m } ∧
    Event.teardownEv ∉
      (Event.setupEv :: (List.range (m + 1)).map Event.benchEv : List Event) := by
  refine ⟨run_eq_of_fail env b m fuel hok hfail hnostop hfuel, ?_⟩
  intro hmem
  simp at hmem

/-- Witness for C3's amended statement: invocations 0–2 succeed, invocation
3 rejects. -/
theorem claim_C3_witness :
    Benchmark.run envFailAt3 5 () =
      some { trace := Event.setupEv :: (List.range 4).map Event.benchEv,
             state := iterBench envFailAt3 0 3 (envFailAt3.setup ()),
             result := RunResult.failure 3 } ∧
    Event.teardownEv ∉
      (Event.setupEv :: (List.range 4).map Event.benchEv : List Event) :=
  claim_C3_failure envFailAt3 () 3 5
    (fun j hj => by simp [envFailAt3]; omega)
    (by simp [envFailAt3])
    (fun j _ h => absurd h.2 (by omega))
    (by omega)

/-- C3 counterexample: teardown is not invoked after a bench failure,
contradicting the claim that it still runs before the failure is
delivered. -/
theorem claim_C3_counterexample :
    Benchmark.run envFail0 1 () =
      some { trace := [Event.setupEv, Event.benchEv 0], state := (),
             result := RunResult.failure 0 } ∧
    Event.teardownEv ∉ ([Event.setupEv, Event.benchEv 0] : List Event) :=
  ⟨runFail0_eq, by simp⟩

/-- C4 (amended): provided the timer is monotone (timestamps never
decrease), every sample value in a successfully returned sequence is ≥ 0.
The code itself performs no clamping, so with a non-monotone timer a
negative delta is silently recorded (see the counterexample). -/
theorem claim_C4_nonneg {σ : Type} (env : RunEnv σ) (b : σ) (fuel : ℕ)
    (o : RunOutcome σ) (out : List ℚ)
    (hmono : Monotone env.clock)
    (h : Benchmark.run env fuel b = some o)
    (hr : o.result = RunResult.success out) :
    ∀ x ∈ out, 0 ≤ x := by
  obtain ⟨N, hout, _, _, _, _⟩ := run_success_char env b fuel o out h hr
  subst hout
  intro x hx
  simp only [sampleSeq, List.mem_map, List.mem_range] at hx
  obtain ⟨j, _, rfl⟩ := hx
  exact sub_nonneg.mpr (hmono (by omega : 2 * j ≤ 2 * j + 1))

/-- Witness for C4's amended statement: with the monotone constant-50 clock,
the first returned sample is non-negative. -/
theorem claim_C4_witness : 0 ≤ dur envB.clock 0 :=
  claim_C4_nonneg envB () 212 (stopOutcome envB () 211)
    (sampleSeq (dur envB.clock) 211)
    (clockOfDur_mono d50 (fun _ => by norm_num [d50]))
    runB_eq rfl (dur envB.clock 0)
    (List.mem_map_of_mem (dur envB.clock) (List.mem_range.mpr (by omega)))

/-- C4 counterexample: with a clock that runs backwards during invocation 0,
the run completes and the returned sequence contains the sample −1 < 0 — the
negative delta is silently recorded as a sample. -/
theorem claim_C4_counterexample :
    Benchmark.run envNeg 212 () = some (stopOutcome envNeg () 211) ∧
    (-1 : ℚ) ∈ sampleSeq (dur envNeg.clock) 211 ∧ (-1 : ℚ) < 0 := by
  refine ⟨runNeg_eq, ?_, by norm_num⟩
  rw [dur_envNeg, show (-1 : ℚ) = dNeg 0 from rfl]
  exact List.mem_map_of_mem dNeg (List.mem_range.mpr (by omega))

/-- C5: with bench measuring exactly 3/2 time units per call and no-op
setup/teardown hooks, the run collects exactly 211 samples whose sum is
exactly 633/2 = 316.5, and no sample count below 211 satisfies both
stopping conditions. -/
theorem claim_C5_scenarioA :
    Benchmark.run envA 212 () = some (stopOutcome envA () 211) ∧
    (sampleSeq (dur envA.clock) 211).length = 211 ∧
    (sampleSeq (dur envA.clock) 211).sum = 633 / 2 ∧
    (∀ j, j < 211 → ¬ stopAt (dur envA.clock) j) := by
  refine ⟨runA_eq, sampleSeq_length _ _, ?_,
    fun j hj => by rw [dur_envA]; exact not_stopAt_lt_211 dA j hj⟩
  rw [dur_envA]
  rw [show (sampleSeq dA 211).sum = elapsedAt dA 211 from rfl]
  rw [show dA = (fun _ => (3 / 2 : ℚ)) from rfl, elapsedAt_const]
  norm_num

/-- C6: the default configuration query, invocable without any instance,
returns exactly one configuration whose label is the empty string and whose
options is the empty object. -/
theorem claim_C6_default_configuration :
    Benchmark.getArguments = [{ label := "", options := JSValue.obj [] }] ∧
    Benchmark.getArguments.length = 1 :=
  ⟨rfl, rfl⟩

/-- C7: the returned sequence preserves collection order — its k-th element
is the duration measured for the k-th bench invocation — and its length
equals the number of bench invocations performed during the run. -/
theorem claim_C7_order {σ : Type} (env : RunEnv σ) (b : σ) (fuel : ℕ)
    (o : RunOutcome σ) (out : List ℚ)
    (h : Benchmark.run env fuel b = some o)
    (hr : o.result = RunResult.success out) :
    (∀ k (hk : k < out.length), out.get ⟨k, hk⟩ = dur env.clock k) ∧
    o.trace.countP isBenchEv = out.length := by
  obtain ⟨N, hout, _, _, htr, _⟩ := run_success_char env b fuel o out h hr
  subst hout
  refine ⟨fun k hk => sampleSeq_get _ _ _ _, ?_⟩
  rw [htr, sampleSeq_length]
  have hN : List.countP (isBenchEv ∘ Event.benchEv) (List.range N) = N := by
    have h1 : List.countP (isBenchEv ∘ Event.benchEv) (List.range N) =
        (List.range N).length :=
      List.countP_eq_length.mpr (fun a _ => rfl)
    rw [h1, List.length_range]
  simp [List.countP_cons, List.countP_append, List.countP_map, isBenchEv, hN]

/-- Witness for C7 at the constant-50 environment. -/
theorem claim_C7_witness :
    (sampleSeq (dur envB.clock) 211).get
        ⟨0, by rw [sampleSeq_length]; omega⟩ = dur envB.clock 0 ∧
    (stopOutcome envB () 211).trace.countP isBenchEv =
      (sampleSeq (dur envB.clock) 211).length :=
  ⟨(claim_C7_order envB () 212 _ _ runB_eq rfl).1 0 (by rw [sampleSeq_length]; omega),
   (claim_C7_order envB () 212 _ _ runB_eq rfl).2⟩

/-- C8: if every measured duration is bounded below by some δ > 0 and all
bench invocations succeed, the run terminates after finitely many samples:
there is a first index N satisfying both stopping conditions — and nothing
else bounds the loop — at which the run tears down and yields the full
sample sequence. -/
theorem claim_C8_terminates {σ : Type} (env : RunEnv σ) (b : σ) (δ : ℚ)
    (hδ : 0 < δ) (hlb : ∀ k, δ ≤ dur env.clock k)
    (hok : ∀ k, env.benchOk k = true) :
    ∃ N, stopAt (dur env.clock) N ∧ (∀ j, j < N → ¬ stopAt (dur env.clock) j) ∧
      Benchmark.run env (N + 1) b = some (stopOutcome env b N) := by
  have hsum : ∀ n : ℕ, (n : ℚ) * δ ≤ elapsedAt (dur env.clock) n := by
    intro n
    induction n with
    | zero => simp [elapsedAt_zero]
    | succ n ih =>
      rw [elapsedAt_succ]
      push_cast
      have := hlb n
      linarith
  have hstopM : stopAt (dur env.clock) (max 211 ⌈(300 : ℚ) / δ⌉₊) := by
    constructor
    · have h1 : (300 : ℚ) / δ ≤ (⌈(300 : ℚ) / δ⌉₊ : ℚ) := Nat.le_ceil _
      have h2 : ((⌈(300 : ℚ) / δ⌉₊ : ℕ) : ℚ) ≤
          ((max 211 ⌈(300 : ℚ) / δ⌉₊ : ℕ) : ℚ) := by
        exact_mod_cast le_max_right 211 ⌈(300 : ℚ) / δ⌉₊
      have h3 : (300 : ℚ) = 300 / δ * δ := by field_simp
      calc (300 : ℚ) = 300 / δ * δ := h3
        _ ≤ ((max 211 ⌈(300 : ℚ) / δ⌉₊ : ℕ) : ℚ) * δ :=
            mul_le_mul_of_nonneg_right (h1.trans h2) hδ.le
        _ ≤ elapsedAt (dur env.clock) (max 211 ⌈(300 : ℚ) / δ⌉₊) := hsum _
    · have : 211 ≤ max 211 ⌈(300 : ℚ) / δ⌉₊ := le_max_left _ _
      omega
  have hex : ∃ n, stopAt (dur env.clock) n := ⟨_, hstopM⟩
  refine ⟨Nat.find hex, Nat.find_spec hex, fun j hj => Nat.find_min hex hj, ?_⟩
  exact run_eq_of_firstStop env b (Nat.find hex) (Nat.find hex + 1)
    (fun j _ => hok j) (Nat.find_spec hex) (fun j hj => Nat.find_min hex hj)
    (by omega)

/-- Witness for C8: with constant duration 2 (δ = 2) the run terminates at
the first stopping index, which is 211. -/
theorem claim_C8_witness :
    Benchmark.run envC 212 () = some (stopOutcome envC () 211) := by
  obtain ⟨N, hstopN, hfirstN, hrun⟩ := claim_C8_terminates envC () 2 (by norm_num)
    (fun k => by rw [show dur envC.clock k = dC k from congrFun dur_envC k]; norm_num [dC])
    (fun _ => rfl)
  have hN : N = 211 := by
    have h1 : 210 < N := hstopN.2
    by_contra hne
    have h2 : 211 < N := by omega
    have h3 := hfirstN 211 h2
    rw [dur_envC] at h3
    exact h3 stopAt_dC_211
  subst hN
  exact hrun

/-- C9: the elapsed accumulator used by the stopping check equals the sum of
the samples collected so far — in particular the returned samples sum to the
elapsed value at the final check — and consequently every successful run
returns at least 211 samples whose sum is at least 300. -/
theorem claim_C9_accumulator {σ : Type} (env : RunEnv σ) (b : σ) (fuel : ℕ)
    (o : RunOutcome σ) (out : List ℚ)
    (h : Benchmark.run env fuel b = some o)
    (hr : o.result = RunResult.success out) :
    out.sum = elapsedAt (dur env.clock) out.length ∧
    211 ≤ out.length ∧ 300 ≤ out.sum := by
  obtain ⟨N, hout, hstop, _, _, _⟩ := run_success_char env b fuel o out h hr
  subst hout
  rw [sampleSeq_length]
  refine ⟨rfl, ?_, hstop.1⟩
  have := hstop.2
  omega

/-- Witness for C9 at the constant-50 environment. -/
theorem claim_C9_witness :
    (sampleSeq (dur envB.clock) 211).sum =
      elapsedAt (dur envB.clock) (sampleSeq (dur envB.clock) 211).length ∧
    211 ≤ (sampleSeq (dur envB.clock) 211).length ∧
    300 ≤ (sampleSeq (dur envB.clock) 211).sum :=
  claim_C9_accumulator envB () 212 _ _ runB_eq rfl

/-- C10: a run of the base class with its default no-op hooks leaves the
instance's label and options exactly as the constructor assigned them from
the given configuration. -/
theorem claim_C10_frame (clock : ℕ → ℚ) (opts : BenchmarkOptions) (fuel : ℕ)
    (o : RunOutcome Benchmark)
    (h : Benchmark.run (defaultEnv clock) fuel (Benchmark.constructor opts) = some o) :
    o.state.label = opts.label ∧ o.state.options = opts.options := by
  have hst := run_state_of_id (defaultEnv clock) (fun _ => rfl) (fun _ _ => rfl)
    (fun _ => rfl) fuel (Benchmark.constructor opts) o h
  rw [hst]
  exact ⟨rfl, rfl⟩

/-- Witness for C10 at a concrete clock and configuration. -/
theorem claim_C10_witness :
    (stopOutcome (defaultEnv (clockOfDur d50)) (Benchmark.constructor optsW) 211).state.label =
      optsW.label ∧
    (stopOutcome (defaultEnv (clockOfDur d50)) (Benchmark.constructor optsW) 211).state.options =
      optsW.options :=
  claim_C10_frame (clockOfDur d50) optsW 212 _ runD_eq
